import Mathlib

/-!
# Verification of the IntelliTrade lot-size / position-size calculator

This file gives a shallow embedding of the standalone lot-size calculator
found in the repository (the variant that computes position sizing itself
rather than embedding a third-party widget), together with proofs of the
specification's claims about it.

Modelling conventions:

* JavaScript numbers are modelled by the rationals.  All arithmetic the
  calculator performs on the values the claims talk about (products,
  quotients of finite positive numbers) is exact, so no rounding model is
  needed; the source applies two-decimal formatting only when rendering the
  result strings for the UI, after the computation is complete.
* A value produced by parseFloat is modelled as an Option over the
  rationals, with none standing for NaN (missing or non-numeric input,
  or a missing / non-numeric entry of the remote rate table).
* Thrown exceptions and early returns that abandon the computation are
  modelled with Except: an error value means the calculation produced no
  CalculationResult.
* The remote rate source is modelled by an environment record: a flag for
  presence of the API key, a flag for the HTTP round trip succeeding with a
  parseable body, and the parsed USD-anchored table itself, one optional
  rational per currency code.  A calculation reads this fixed environment;
  theorems that quantify over every environment thereby express that the
  corresponding code path performs no rate lookup.
* The source's replace with a string pattern replaces only the first
  occurrence, as JavaScript defines it; the embedding mirrors that with an
  explicit first-occurrence removal on the character list.
-/

/-- Removes the first occurrence of the slash character from a character
list, and only the first: this is what the source's replace call does,
since a JavaScript string pattern is not a global match. -/
def removeFirstSlash : List Char → List Char
  | [] => []
  | c :: cs => if c = '/' then cs else c :: removeFirstSlash cs

/-- Embedding of normalizePair: remove the first slash (JavaScript replace
with a string pattern), then upper-case the remainder. -/
def normalizePair (pair : String) : String :=
  ⟨(removeFirstSlash pair.data).map Char.toUpper⟩

/-- The error kinds the calculator can surface.  They correspond to the
thrown errors and rejecting early returns of the source: the malformed-pair
throw of parsePair, the no-conversion-available throw of convertRate, the
missing-API-key throw of the part_011 fetch, the invalid-input early return
of handleCalculate, and the invalid-risk-per-lot throw of handleCalculate.
The source's malformed-pair message is a constant string that does not name
the offending input, so that constructor carries no payload. -/
inductive CalcError : Type where
  | malformedPair : CalcError
  | rateUnavailable (fromCcy toCcy : String) : CalcError
  | missingApiKey : CalcError
  | invalidInput : CalcError
  | invalidCalculation : CalcError
deriving DecidableEq, Repr

/-- Embedding of parsePair: normalize, require exactly six characters, and
split into the first three (base) and last three (quote) characters. -/
def parsePair (pair : String) : Except CalcError (String × String) :=
  let s := normalizePair pair
  if s.length = 6 then .ok (⟨s.data.take 3⟩, ⟨s.data.drop 3⟩)
  else .error .malformedPair

/-- Model of the JavaScript startsWith method on strings. -/
def jsStartsWith (s p : String) : Bool := p.data.isPrefixOf s.data

/-- Model of the JavaScript endsWith method on strings. -/
def jsEndsWith (s p : String) : Bool := p.data.isSuffixOf s.data

/-- Embedding of pipSizeFor: first matching rule wins, the JPY-suffix rule
is checked before every asset-code rule. -/
def pipSizeFor (p : String) : ℚ :=
  let s := normalizePair p
  if jsEndsWith s "JPY" then 1/100
  else if jsStartsWith s "XAU" then 1/100
  else if jsStartsWith s "XAG" then 1/100
  else if jsStartsWith s "WTI" then 1/100
  else if jsStartsWith s "BTC" then 1
  else if jsStartsWith s "ETH" then 1
  else 1/10000

/-- Embedding of contractSizeFor: the source checks only the five asset
code rules here, with no JPY-suffix rule at all, before the default. -/
def contractSizeFor (p : String) : ℚ :=
  let s := normalizePair p
  if jsStartsWith s "XAU" then 100
  else if jsStartsWith s "XAG" then 5000
  else if jsStartsWith s "WTI" then 1000
  else if jsStartsWith s "BTC" then 1
  else if jsStartsWith s "ETH" then 1
  else 100000

/-- State of the external rate source during one calculation: whether the
API key is configured, whether the HTTP request round-trips with a
parseable body, and the parsed USD-anchored table (units of each currency
per one USD); none models a missing or non-numeric table entry, whose
parseFloat yields NaN. -/
structure RateEnv : Type where
  apiKey : Bool
  ok : Bool
  rates : String → Option ℚ

/-- Embedding of fetchExchangeRate from part_012.  The pair is parsed
outside the try block, so a malformed pair propagates as an error; every
failure inside the try block (failed fetch, missing or non-numeric table
entry, non-positive parsed rate) is caught and becomes a null return,
modelled as ok none.  A missing API key only produces a console warning in
this variant; the ensuing failed fetch is covered by the ok flag. -/
def fetchExchangeRate12 (env : RateEnv) (pairSymbol : String) :
    Except CalcError (Option ℚ) :=
  match parsePair pairSymbol with
  | .error e => .error e
  | .ok (base, quote) =>
    if !env.ok then .ok none
    else
      match env.rates base, env.rates quote with
      | some usdToBase, some usdToQuote =>
        if usdToBase ≤ 0 ∨ usdToQuote ≤ 0 then .ok none
        else .ok (some (
          if base = "USD" then usdToQuote
          else if quote = "USD" then 1 / usdToBase
          else usdToQuote / usdToBase))
      | _, _ => .ok none

/-- Embedding of fetchExchangeRate from part_011.  This variant throws when
the API key is missing (before the try block), substitutes 1 for the USD
side instead of reading the table, and checks only that the parsed entries
are numbers, without the positivity check of the part_012 variant. -/
def fetchExchangeRate11 (env : RateEnv) (pairSymbol : String) :
    Except CalcError (Option ℚ) :=
  if !env.apiKey then .error .missingApiKey
  else
    match parsePair pairSymbol with
    | .error e => .error e
    | .ok (base, quote) =>
      if !env.ok then .ok none
      else
        match (if base = "USD" then some 1 else env.rates base),
              (if quote = "USD" then some 1 else env.rates quote) with
        | some usdToBase, some usdToQuote =>
          .ok (some (
            if base = "USD" then usdToQuote
            else if quote = "USD" then 1 / usdToBase
            else usdToQuote / usdToBase))
        | _, _ => .ok none

/-- The second, inverse lookup attempt of convertRate: fetch the reversed
pair and invert a finite positive result, otherwise fail with the
no-conversion-available error. -/
def convertInverse (fetchER : String → Except CalcError (Option ℚ))
    (fromCcy toCcy : String) : Except CalcError ℚ :=
  match fetchER (toCcy ++ fromCcy) with
  | .error e => .error e
  | .ok (some r) =>
    if 0 < r then .ok (1 / r) else .error (.rateUnavailable fromCcy toCcy)
  | .ok none => .error (.rateUnavailable fromCcy toCcy)

/-- Embedding of convertRate, shared verbatim by the two source variants up
to the fetch function each closes over; the fetch is therefore passed as an
argument.  The truthiness test of the source (a null, zero, or NaN direct
result is falsy, and a finite result above zero passes) amounts in this
model to the result being present and positive. -/
def convertRateWith (fetchER : String → Except CalcError (Option ℚ))
    (fromCcy toCcy : String) : Except CalcError ℚ :=
  if fromCcy = toCcy then .ok 1
  else
    match fetchER (fromCcy ++ toCcy) with
    | .error e => .error e
    | .ok (some r) =>
      if 0 < r then .ok r else convertInverse fetchER fromCcy toCcy
    | .ok none => convertInverse fetchER fromCcy toCcy

/-- The convertRate of part_012. -/
def convertRate12 (env : RateEnv) : String → String → Except CalcError ℚ :=
  convertRateWith (fetchExchangeRate12 env)

/-- The convertRate of part_011. -/
def convertRate11 (env : RateEnv) : String → String → Except CalcError ℚ :=
  convertRateWith (fetchExchangeRate11 env)

/-- The three output figures of a successful calculation, before the
two-decimal display formatting. -/
structure CalculationResult : Type where
  riskAmount : ℚ
  pipValuePerLot : ℚ
  positionSizeLots : ℚ
deriving DecidableEq, Repr

/-- Embedding of handleCalculate from part_012.  The three numeric field
values are the parseFloat results (none is NaN); the account currency and
the pair come from the form state.  The early alert-and-return on invalid
numbers is the invalidInput error, the caught exceptions of the try block
are the remaining errors, and a successful run yields the three figures
exactly as computed, display formatting aside.  The numeric inputs here
range over NaN and finite values only; handleCalculateJS below extends
the embedding with the infinities parseFloat can also produce, and agrees
with this function on finite inputs. -/
def handleCalculate (env : RateEnv) (currency pair : String)
    (balance riskPercent stopLoss : Option ℚ) :
    Except CalcError CalculationResult :=
  match balance, riskPercent, stopLoss with
  | some balanceNum, some riskPercentNum, some stopLossNum =>
    if balanceNum ≤ 0 ∨ riskPercentNum ≤ 0 ∨ stopLossNum ≤ 0 then
      .error .invalidInput
    else
      let cleanPair := normalizePair pair
      match parsePair cleanPair with
      | .error e => .error e
      | .ok (_, quote) =>
        let pipSize := pipSizeFor cleanPair
        let contractSize := contractSizeFor cleanPair
        let riskAmt := balanceNum * (riskPercentNum / 100)
        let pipValuePerUnitInQuote := pipSize
        match (if currency = quote then Except.ok 1
               else convertRate12 env quote currency) with
        | .error e => .error e
        | .ok quoteToAccount =>
          let pipValuePerUnitInAccount := pipValuePerUnitInQuote * quoteToAccount
          let pipValuePerLot := pipValuePerUnitInAccount * contractSize
          let riskPerLot := stopLossNum * pipValuePerLot
          if riskPerLot ≤ 0 then .error .invalidCalculation
          else .ok ⟨riskAmt, pipValuePerLot, riskAmt / riskPerLot⟩
  | _, _, _ => .error .invalidInput

/-- A JavaScript double as the calculator can observe it: NaN, one of the
two infinities, or a finite value.  Finite values are exact rationals as
elsewhere in this development; the signed zero of IEEE arithmetic is not
distinguished, which the calculator never does either. -/
inductive JSNum : Type where
  | nan : JSNum
  | posInf : JSNum
  | negInf : JSNum
  | num (val : ℚ) : JSNum
deriving DecidableEq, Repr

/-- The isNaN test of JavaScript. -/
def JSNum.isNaN : JSNum → Bool
  | nan => true
  | _ => false

/-- The isFinite test of JavaScript. -/
def JSNum.isFinite : JSNum → Bool
  | num _ => true
  | _ => false

/-- The comparison with zero the source's validation performs: NaN
compares false, negative infinity is below zero, positive infinity is
not. -/
def JSNum.leZero : JSNum → Bool
  | nan => false
  | posInf => false
  | negInf => true
  | num q => decide (q ≤ 0)

/-- IEEE multiplication on the observable doubles: NaN propagates, an
infinity times zero is NaN, otherwise signs multiply. -/
def JSNum.mul : JSNum → JSNum → JSNum
  | nan, _ => nan
  | _, nan => nan
  | posInf, posInf => posInf
  | posInf, negInf => negInf
  | negInf, posInf => negInf
  | negInf, negInf => posInf
  | posInf, num q => if q = 0 then nan else if 0 < q then posInf else negInf
  | num q, posInf => if q = 0 then nan else if 0 < q then posInf else negInf
  | negInf, num q => if q = 0 then nan else if 0 < q then negInf else posInf
  | num q, negInf => if q = 0 then nan else if 0 < q then negInf else posInf
  | num a, num b => num (a * b)

/-- IEEE division on the observable doubles: NaN propagates, an infinity
over an infinity is NaN, a finite value over an infinity is zero, and a
nonzero finite value over zero is a signed infinity (zero over zero is
NaN). -/
def JSNum.div : JSNum → JSNum → JSNum
  | nan, _ => nan
  | _, nan => nan
  | posInf, posInf => nan
  | posInf, negInf => nan
  | negInf, posInf => nan
  | negInf, negInf => nan
  | posInf, num q => if q < 0 then negInf else posInf
  | negInf, num q => if q < 0 then posInf else negInf
  | num _, posInf => num 0
  | num _, negInf => num 0
  | num a, num b =>
    if b = 0 then (if a = 0 then nan else if 0 < a then posInf else negInf)
    else num (a / b)

/-- The three output figures with the full double range, since an
infinite balance propagates into the risk amount and the position
size. -/
structure JSCalculationResult : Type where
  riskAmount : JSNum
  pipValuePerLot : JSNum
  positionSizeLots : JSNum
deriving DecidableEq, Repr

/-- Embedding of handleCalculate from part_012 over the full observable
double range of parseFloat results, infinities included.  The validation
tests exactly what the source tests, isNaN and the comparison with zero,
so an infinite input passes it; the later risk-per-lot gate also keeps the
source's isFinite test, which is no longer vacuous here.  The conversion
rate itself stays rational: the part_012 fetch only ever yields a finite
positive rate or a failure.  On finite inputs this function agrees with
handleCalculate, which is its NaN-or-finite restriction. -/
def handleCalculateJS (env : RateEnv) (currency pair : String)
    (balance riskPercent stopLoss : JSNum) :
    Except CalcError JSCalculationResult :=
  if balance.isNaN || riskPercent.isNaN || stopLoss.isNaN
      || balance.leZero || riskPercent.leZero || stopLoss.leZero then
    .error .invalidInput
  else
    let cleanPair := normalizePair pair
    match parsePair cleanPair with
    | .error e => .error e
    | .ok (_, quote) =>
      let pipSize := JSNum.num (pipSizeFor cleanPair)
      let contractSize := JSNum.num (contractSizeFor cleanPair)
      let riskAmt := balance.mul (riskPercent.div (JSNum.num 100))
      let pipValuePerUnitInQuote := pipSize
      match (if currency = quote then Except.ok 1
             else convertRate12 env quote currency) with
      | .error e => .error e
      | .ok quoteToAccount =>
        let pipValuePerUnitInAccount :=
          pipValuePerUnitInQuote.mul (JSNum.num quoteToAccount)
        let pipValuePerLot := pipValuePerUnitInAccount.mul contractSize
        let riskPerLot := stopLoss.mul pipValuePerLot
        if !riskPerLot.isFinite || riskPerLot.leZero then
          .error .invalidCalculation
        else .ok ⟨riskAmt, pipValuePerLot, riskAmt.div riskPerLot⟩

/-- The rate-derivation formula exactly as the specification states it,
for comparison with the two source variants. -/
def specRateFormula (usdPerBase usdPerQuote : ℚ) (base quote : String) : ℚ :=
  if base = "USD" then usdPerQuote
  else if quote = "USD" then 1 / usdPerBase
  else usdPerQuote / usdPerBase

/-- Interpreter for an ordered classification table: the value of the
first rule whose test matches, else the default. -/
def applyRules : List ((String → Bool) × ℚ) → ℚ → String → ℚ
  | [], dflt, _ => dflt
  | (test, v) :: rest, dflt, s => if test s then v else applyRules rest dflt s

/-- The specification's pip-size table, in its stated precedence order. -/
def pipRuleTable : List ((String → Bool) × ℚ) :=
  [(fun s => jsEndsWith s "JPY", 1/100),
   (fun s => jsStartsWith s "XAU", 1/100),
   (fun s => jsStartsWith s "XAG", 1/100),
   (fun s => jsStartsWith s "WTI", 1/100),
   (fun s => jsStartsWith s "BTC", 1),
   (fun s => jsStartsWith s "ETH", 1)]

/-- Pip size as the first matching rule of the pip-size table. -/
def pipSizeTabulated (p : String) : ℚ :=
  applyRules pipRuleTable (1/10000) (normalizePair p)

/-- The contract-size rules the source actually evaluates: the five asset
code tests only, with no JPY-suffix rule. -/
def contractRuleTable : List ((String → Bool) × ℚ) :=
  [(fun s => jsStartsWith s "XAU", 100),
   (fun s => jsStartsWith s "XAG", 5000),
   (fun s => jsStartsWith s "WTI", 1000),
   (fun s => jsStartsWith s "BTC", 1),
   (fun s => jsStartsWith s "ETH", 1)]

/-- Contract size as the first matching rule of the contract-size table. -/
def contractSizeTabulated (p : String) : ℚ :=
  applyRules contractRuleTable 100000 (normalizePair p)

/-- An environment with no reachable rate data, used to instantiate
theorems whose conclusion does not depend on the rate source. -/
def envEmpty : RateEnv := ⟨true, false, fun _ => none⟩

/-- A small concrete USD-anchored rate table used to instantiate the
rate-resolver theorems. -/
def envDemo : RateEnv :=
  ⟨true, true, fun code =>
    if code = "USD" then some 1
    else if code = "EUR" then some (9/10)
    else if code = "JPY" then some 150
    else none⟩

/-- A concrete fetch oracle holding one exactly-reciprocal pair of quotes,
used to instantiate the round-trip theorem. -/
def fetchDemo : String → Except CalcError (Option ℚ) := fun p =>
  if p = "EURUSD" then .ok (some 2)
  else if p = "USDEUR" then .ok (some (1/2))
  else .ok none

/-! ## Helper lemmas about characters and slash removal -/

theorem toNat_ofNat_valid (m : Nat) (h : m.isValidChar) :
    (Char.ofNat m).toNat = m := by
  simp [Char.ofNat, h, Char.ofNatAux, Char.toNat, UInt32.toNat]

theorem char_toUpper_idem (c : Char) : c.toUpper.toUpper = c.toUpper := by
  unfold Char.toUpper
  by_cases h : c.toNat ≥ 97 ∧ c.toNat ≤ 122
  · have hv : (c.toNat - 32).isValidChar := by
      left; omega
    rw [if_pos h, toNat_ofNat_valid _ hv, if_neg (by omega)]
  · rw [if_neg h, if_neg h]

theorem char_toUpper_eq_slash {c : Char} (h : c.toUpper = '/') : c = '/' := by
  unfold Char.toUpper at h
  by_cases hc : c.toNat ≥ 97 ∧ c.toNat ≤ 122
  · rw [if_pos hc] at h
    have hv : (c.toNat - 32).isValidChar := by left; omega
    have := congrArg Char.toNat h
    rw [toNat_ofNat_valid _ hv] at this
    have h47 : ('/' : Char).toNat = 47 := rfl
    omega
  · rwa [if_neg hc] at h

theorem removeFirstSlash_of_not_mem {l : List Char} (h : '/' ∉ l) :
    removeFirstSlash l = l := by
  induction l with
  | nil => rfl
  | cons c cs ih =>
    simp only [List.mem_cons, not_or] at h
    simp only [removeFirstSlash, if_neg (Ne.symm h.1)]
    rw [ih h.2]

theorem removeFirstSlash_length_of_mem {l : List Char} (h : '/' ∈ l) :
    (removeFirstSlash l).length + 1 = l.length := by
  induction l with
  | nil => cases h
  | cons c cs ih =>
    by_cases hc : c = '/'
    · simp [removeFirstSlash, hc]
    · rcases List.mem_cons.mp h with h1 | h2
      · exact absurd h1.symm hc
      · simp only [removeFirstSlash, if_neg (fun he => hc he), List.length_cons]
        rw [← ih h2]

/-! ## Helper lemmas about the instrument parameter table -/

theorem pipSizeFor_pos (p : String) : 0 < pipSizeFor p := by
  simp only [pipSizeFor]
  split_ifs <;> norm_num

theorem contractSizeFor_pos (p : String) : 0 < contractSizeFor p := by
  simp only [contractSizeFor]
  split_ifs <;> norm_num

/-! ## Claim C1 -/

/-- C1: with a USD account and the pair EURUSD (balance 10000, risk 1%,
stop 50 pips) the calculator returns risk amount 100, pip value per lot 10
and 0.20 lots; with XAUUSD (balance 5000, risk 2%, stop 300 pips) it
returns 100, 1 and one third of a lot.  Both results hold for every state
of the rate source, so no rate lookup influences them and the quote-to-
account factor is 1. -/
theorem c1_concrete_requests :
    (∀ env : RateEnv,
      handleCalculate env "USD" "EURUSD" (some 10000) (some 1) (some 50) =
        .ok ⟨100, 10, 1/5⟩) ∧
    (∀ env : RateEnv,
      handleCalculate env "USD" "XAUUSD" (some 5000) (some 2) (some 300) =
        .ok ⟨100, 1, 1/3⟩) := by
  constructor <;> intro env
  · have hp : parsePair (normalizePair "EURUSD") = .ok ("EUR", "USD") := rfl
    have hpip : pipSizeFor (normalizePair "EURUSD") = 1/10000 := rfl
    have hcs : contractSizeFor (normalizePair "EURUSD") = 100000 := rfl
    simp only [handleCalculate, hp, hpip, hcs]
    norm_num
  · have hp : parsePair (normalizePair "XAUUSD") = .ok ("XAU", "USD") := rfl
    have hpip : pipSizeFor (normalizePair "XAUUSD") = 1/100 := rfl
    have hcs : contractSizeFor (normalizePair "XAUUSD") = 100 := rfl
    simp only [handleCalculate, hp, hpip, hcs]
    norm_num

/-! ## Claim C4 -/

/-- C4 counterexample: the symbol XAUJPY ends in JPY, so the claim's
first-matching-rule reading assigns it the JPY row's contract size 100000;
the source's contractSizeFor never consults the JPY suffix and returns the
XAU contract size 100 instead. -/
theorem c4_counterexample :
    contractSizeFor "XAUJPY" = 100 ∧
    jsEndsWith (normalizePair "XAUJPY") "JPY" = true ∧
    (100 : ℚ) ≠ 100000 :=
  ⟨rfl, rfl, by norm_num⟩

/-- C4 amended: pipSizeFor and contractSizeFor are total, positive, and
first-match-wins over two separate rule lists: the pip-size list starts
with the JPY-suffix rule, while the contract-size list consists of the
five asset-code rules only, so a JPY suffix never affects contract size. -/
theorem c4_amended_tables : ∀ p : String,
    pipSizeFor p = pipSizeTabulated p ∧
    contractSizeFor p = contractSizeTabulated p ∧
    0 < pipSizeFor p ∧ 0 < contractSizeFor p := by
  intro p
  refine ⟨?_, ?_, pipSizeFor_pos p, contractSizeFor_pos p⟩
  · simp only [pipSizeFor, pipSizeTabulated, pipRuleTable, applyRules]
  · simp only [contractSizeFor, contractSizeTabulated, contractRuleTable,
      applyRules]

/-! ## Claim C5 -/

/-- On NaN-free finite inputs the full-double embedding and the
rational-input embedding are the same calculation: handleCalculate is the
finite restriction of handleCalculateJS. -/
theorem handleCalculateJS_agrees_on_finite :
    ∀ (env : RateEnv) (c pair : String) (b rp sl : ℚ),
    handleCalculateJS env c pair (.num b) (.num rp) (.num sl) =
      Except.map
        (fun r : CalculationResult =>
          (⟨.num r.riskAmount, .num r.pipValuePerLot,
            .num r.positionSizeLots⟩ : JSCalculationResult))
        (handleCalculate env c pair (some b) (some rp) (some sl)) := by
  intro env c pair b rp sl
  have h100 : (100 : ℚ) ≠ 0 := by norm_num
  by_cases hval : b ≤ 0 ∨ rp ≤ 0 ∨ sl ≤ 0
  · have hcond : ((JSNum.num b).isNaN || (JSNum.num rp).isNaN
        || (JSNum.num sl).isNaN || (JSNum.num b).leZero
        || (JSNum.num rp).leZero || (JSNum.num sl).leZero) = true := by
      simp only [JSNum.isNaN, JSNum.leZero, Bool.false_or, Bool.or_eq_true,
        decide_eq_true_eq]
      tauto
    simp [handleCalculateJS, handleCalculate, hcond, if_pos hval, Except.map]
  · have hval' := hval
    push_neg at hval'
    obtain ⟨hb, hrp, hsl⟩ := hval'
    have hcond : ((JSNum.num b).isNaN || (JSNum.num rp).isNaN
        || (JSNum.num sl).isNaN || (JSNum.num b).leZero
        || (JSNum.num rp).leZero || (JSNum.num sl).leZero) = false := by
      simp [JSNum.isNaN, JSNum.leZero, hb.not_le, hrp.not_le, hsl.not_le]
    cases hp : parsePair (normalizePair pair) with
    | error e =>
      simp [handleCalculateJS, handleCalculate, hcond, if_neg hval, hp,
        Except.map]
    | ok bq =>
      obtain ⟨base, quote⟩ := bq
      cases hcr : (if c = quote then (Except.ok 1 : Except CalcError ℚ)
          else convertRate12 env quote c) with
      | error e =>
        simp [handleCalculateJS, handleCalculate, hcond, if_neg hval, hp,
          hcr, Except.map]
      | ok q2a =>
        by_cases hrisk : sl * (pipSizeFor (normalizePair pair) * q2a *
            contractSizeFor (normalizePair pair)) ≤ 0
        · simp [handleCalculateJS, handleCalculate, hcond, if_neg hval, hp,
            hcr, JSNum.mul, JSNum.div, JSNum.isFinite, JSNum.leZero, h100,
            if_pos hrisk, hrisk, Except.map]
          exact ⟨⟨⟨⟨⟨rfl, rfl⟩, rfl⟩, hb⟩, hrp⟩, hsl⟩
        · have hRne : sl * (pipSizeFor (normalizePair pair) * q2a *
              contractSizeFor (normalizePair pair)) ≠ 0 :=
            ne_of_gt (not_le.mp hrisk)
          simp [handleCalculateJS, handleCalculate, hcond, if_neg hval, hp,
            hcr, JSNum.mul, JSNum.div, JSNum.isFinite, JSNum.leZero, h100,
            hrisk, hRne, Except.map]
          exact ⟨⟨⟨⟨⟨rfl, rfl⟩, rfl⟩, hb⟩, hrp⟩, hsl⟩

/-- C5 counterexample: the claim demands the invalid-input failure for
every non-finite numeric input, but the source's validation tests only
isNaN and the comparison with zero, both of which positive infinity
passes.  An infinite account balance (parseFloat of an overflowing
literal) therefore produces a CalculationResult, with infinite risk
amount and position size, rather than any error; and an infinite
stop-loss is rejected only later, by the risk-per-lot gate, with
invalidCalculation rather than invalidInput. -/
theorem c5_counterexample :
    (handleCalculateJS envEmpty "USD" "EURUSD" JSNum.posInf (JSNum.num 1)
        (JSNum.num 50) =
      .ok ⟨JSNum.posInf, JSNum.num 10, JSNum.posInf⟩) ∧
    (handleCalculateJS envEmpty "USD" "EURUSD" JSNum.posInf (JSNum.num 1)
        (JSNum.num 50) ≠ .error .invalidInput) ∧
    (handleCalculateJS envEmpty "USD" "EURUSD" (JSNum.num 1000) (JSNum.num 1)
        JSNum.posInf = .error .invalidCalculation) := by
  have hp : parsePair (normalizePair "EURUSD") = .ok ("EUR", "USD") := rfl
  have hpip : pipSizeFor (normalizePair "EURUSD") = 1/10000 := rfl
  have hcs : contractSizeFor (normalizePair "EURUSD") = 100000 := rfl
  have h1 : handleCalculateJS envEmpty "USD" "EURUSD" JSNum.posInf
      (JSNum.num 1) (JSNum.num 50) =
      .ok ⟨JSNum.posInf, JSNum.num 10, JSNum.posInf⟩ := by
    simp only [handleCalculateJS, hp, hpip, hcs]
    norm_num [JSNum.isNaN, JSNum.leZero, JSNum.mul, JSNum.div, JSNum.isFinite]
  refine ⟨h1, by rw [h1]; simp, ?_⟩
  simp only [handleCalculateJS, hp, hpip, hcs]
  norm_num [JSNum.isNaN, JSNum.leZero, JSNum.mul, JSNum.div, JSNum.isFinite]

/-- C5 amended: handleCalculate fails with invalidInput, producing no
CalculationResult, whenever one of the three numeric inputs is NaN
(missing or non-numeric) or compares less than or equal to zero, for
every rate-source state, every account currency and every pair string,
so this validation precedes every other step; an infinite input is not
caught by it, since the source tests only isNaN and the comparison with
zero. -/
theorem c5_amended_invalid_input : ∀ (env : RateEnv) (c p : String)
    (b rp sl : JSNum),
    (b.isNaN = true ∨ rp.isNaN = true ∨ sl.isNaN = true ∨
     b.leZero = true ∨ rp.leZero = true ∨ sl.leZero = true) →
    handleCalculateJS env c p b rp sl = .error .invalidInput := by
  intro env c p b rp sl h
  have hcond : (b.isNaN || rp.isNaN || sl.isNaN
      || b.leZero || rp.leZero || sl.leZero) = true := by
    rcases h with h | h | h | h | h | h <;> simp [h]
  simp [handleCalculateJS, hcond]

/-- C5 witness: the specification's own example, a zero balance, is
rejected with invalidInput. -/
theorem c5_amended_invalid_input_witness :
    handleCalculateJS envEmpty "USD" "EURUSD" (JSNum.num 0) (JSNum.num 1)
        (JSNum.num 50) = .error .invalidInput :=
  c5_amended_invalid_input envEmpty "USD" "EURUSD" (JSNum.num 0)
    (JSNum.num 1) (JSNum.num 50)
    (Or.inr (Or.inr (Or.inr (Or.inl (by decide)))))

/-! ## Claim C6 -/

/-- C6 counterexample: normalize does not remove every slash.  On the
input with two slashes shown here, removing every slash and upper-casing
would give the six-character EURUSD, which the claim says must be
accepted; the source removes only the first slash, leaving a seven
character string that still contains a slash, and the pipeline rejects
the input as malformed. -/
theorem c6_counterexample :
    normalizePair "EUR/USD/" = "EURUSD/" ∧
    parsePair "EUR/USD/" = .error .malformedPair ∧
    (⟨("EUR/USD/".data.filter (fun c => !(c == '/'))).map Char.toUpper⟩ :
      String) = "EURUSD" :=
  ⟨rfl, rfl, rfl⟩

/-- C6 amended: normalize removes the first slash (if any) and upper-cases
the remainder; parsePair succeeds exactly when this normalized string has
six characters, and otherwise fails with the malformed-pair error, its only
failure mode.  parsePair is a pure function of the string, with no access
to the rate source, so the failure occurs before any rate lookup. -/
theorem c6_amended_normalize : ∀ s : String,
    ((∃ bq : String × String, parsePair s = .ok bq) ↔
      (normalizePair s).length = 6) ∧
    ((normalizePair s).length ≠ 6 → parsePair s = .error .malformedPair) := by
  intro s
  constructor
  · constructor
    · rintro ⟨bq, h⟩
      by_contra hn
      simp only [parsePair, if_neg hn] at h
      cases h
    · intro h6
      exact ⟨(⟨(normalizePair s).data.take 3⟩, ⟨(normalizePair s).data.drop 3⟩),
        by simp only [parsePair, if_pos h6]⟩
  · intro hn
    simp only [parsePair, if_neg hn]

/-- C6 witness: the specification's five-character example EURUS is
rejected as malformed. -/
theorem c6_amended_normalize_witness :
    parsePair "EURUS" = .error .malformedPair :=
  (c6_amended_normalize "EURUS").2 (by decide)

/-! ## Claim C7 -/

/-- C7: a valid six-character symbol (six characters, still six after
normalization, hence slash-free) decomposes into a three-character base
and a three-character quote, and normalize is idempotent on it. -/
theorem c7_decompose_idempotent : ∀ s : String, s.length = 6 →
    (normalizePair s).length = 6 →
    (∃ b q : String, parsePair s = .ok (b, q) ∧ b.length = 3 ∧ q.length = 3) ∧
    normalizePair (normalizePair s) = normalizePair s := by
  intro s hs hn
  have hdata : s.data.length = 6 := hs
  have hnlen : (removeFirstSlash s.data).length = 6 := by
    have : (normalizePair s).length = (removeFirstSlash s.data).length := by
      simp [normalizePair, String.length]
    omega
  have hmem : '/' ∉ s.data := by
    intro hm
    have := removeFirstSlash_length_of_mem hm
    omega
  have hrem : removeFirstSlash s.data = s.data := removeFirstSlash_of_not_mem hmem
  have hnorm : normalizePair s = ⟨s.data.map Char.toUpper⟩ := by
    simp [normalizePair, hrem]
  constructor
  · refine ⟨⟨(normalizePair s).data.take 3⟩, ⟨(normalizePair s).data.drop 3⟩,
      ?_, ?_, ?_⟩
    · simp only [parsePair, if_pos hn]
    · show ((normalizePair s).data.take 3).length = 3
      rw [List.length_take]
      have : (normalizePair s).data.length = 6 := hn
      omega
    · show ((normalizePair s).data.drop 3).length = 3
      rw [List.length_drop]
      have : (normalizePair s).data.length = 6 := hn
      omega
  · have hmem2 : '/' ∉ s.data.map Char.toUpper := by
      intro hm
      rcases List.mem_map.mp hm with ⟨c, hc, hcu⟩
      exact hmem (char_toUpper_eq_slash hcu ▸ hc)
    rw [hnorm]
    show (⟨(removeFirstSlash (s.data.map Char.toUpper)).map Char.toUpper⟩ :
      String) = ⟨s.data.map Char.toUpper⟩
    rw [removeFirstSlash_of_not_mem hmem2, List.map_map]
    congr 1
    exact List.map_congr_left (fun c _ => char_toUpper_idem c)

/-- C7 witness: the lower-case six-character symbol eurusd is valid, splits
into EUR and USD, and normalization is idempotent on it. -/
theorem c7_decompose_idempotent_witness :
    (∃ b q : String, parsePair "eurusd" = .ok (b, q) ∧
      b.length = 3 ∧ q.length = 3) ∧
    normalizePair (normalizePair "eurusd") = normalizePair "eurusd" :=
  c7_decompose_idempotent "eurusd" (by decide) (by decide)

/-! ## Helper lemmas about the rate resolver and the calculation -/

theorem parsePair_error {p : String} {e : CalcError}
    (h : parsePair p = .error e) : e = .malformedPair := by
  by_cases h6 : (normalizePair p).length = 6
  · simp [parsePair, if_pos h6] at h
  · simp only [parsePair, if_neg h6, Except.error.injEq] at h
    exact h.symm

theorem fetch12_error {env : RateEnv} {p : String} {e : CalcError}
    (h : fetchExchangeRate12 env p = .error e) : e = .malformedPair := by
  cases hp : parsePair p with
  | error e0 =>
    simp only [fetchExchangeRate12, hp, Except.error.injEq] at h
    exact h ▸ parsePair_error hp
  | ok bq =>
    obtain ⟨base, quote⟩ := bq
    simp only [fetchExchangeRate12, hp] at h
    by_cases hok : env.ok
    · simp only [hok] at h
      cases hb : env.rates base with
      | none => simp [hb] at h
      | some ub =>
        cases hq : env.rates quote with
        | none => simp [hb, hq] at h
        | some uq =>
          simp only [hb, hq] at h
          by_cases hle : ub ≤ 0 ∨ uq ≤ 0
          · simp [if_pos hle] at h
          · simp [if_neg hle] at h
    · simp [hok] at h

theorem convertInverse_ok_pos {f : String → Except CalcError (Option ℚ)}
    {a b : String} {r : ℚ} (h : convertInverse f a b = .ok r) : 0 < r := by
  cases hf : f (b ++ a) with
  | error e => simp [convertInverse, hf] at h
  | ok o =>
    cases o with
    | none => simp [convertInverse, hf] at h
    | some s =>
      simp only [convertInverse, hf] at h
      by_cases hs : 0 < s
      · rw [if_pos hs] at h
        obtain rfl := Except.ok.inj h
        positivity
      · simp [if_neg hs] at h

theorem convertRateWith_ok_pos {f : String → Except CalcError (Option ℚ)}
    {a b : String} {r : ℚ} (h : convertRateWith f a b = .ok r) : 0 < r := by
  by_cases hab : a = b
  · simp only [convertRateWith, if_pos hab] at h
    obtain rfl := Except.ok.inj h
    norm_num
  · simp only [convertRateWith, if_neg hab] at h
    cases hf : f (a ++ b) with
    | error e => simp [hf] at h
    | ok o =>
      cases o with
      | none =>
        simp only [hf] at h
        exact convertInverse_ok_pos h
      | some s =>
        simp only [hf] at h
        by_cases hs : 0 < s
        · rw [if_pos hs] at h
          obtain rfl := Except.ok.inj h
          exact hs
        · rw [if_neg hs] at h
          exact convertInverse_ok_pos h

theorem convertInverse_error {f : String → Except CalcError (Option ℚ)}
    {a b : String} {e : CalcError} (h : convertInverse f a b = .error e) :
    (∃ p, f p = .error e) ∨ e = .rateUnavailable a b := by
  cases hf : f (b ++ a) with
  | error e0 =>
    simp only [convertInverse, hf, Except.error.injEq] at h
    exact Or.inl ⟨b ++ a, h ▸ hf⟩
  | ok o =>
    cases o with
    | none =>
      simp only [convertInverse, hf, Except.error.injEq] at h
      exact Or.inr h.symm
    | some s =>
      simp only [convertInverse, hf] at h
      by_cases hs : 0 < s
      · simp [if_pos hs] at h
      · simp only [if_neg hs, Except.error.injEq] at h
        exact Or.inr h.symm

theorem convertRateWith_error {f : String → Except CalcError (Option ℚ)}
    {a b : String} {e : CalcError} (h : convertRateWith f a b = .error e) :
    (∃ p, f p = .error e) ∨ e = .rateUnavailable a b := by
  by_cases hab : a = b
  · simp [convertRateWith, if_pos hab] at h
  · simp only [convertRateWith, if_neg hab] at h
    cases hf : f (a ++ b) with
    | error e0 =>
      simp only [hf, Except.error.injEq] at h
      exact Or.inl ⟨a ++ b, h ▸ hf⟩
    | ok o =>
      cases o with
      | none =>
        simp only [hf] at h
        exact convertInverse_error h
      | some s =>
        simp only [hf] at h
        by_cases hs : 0 < s
        · simp [if_pos hs] at h
        · rw [if_neg hs] at h
          exact convertInverse_error h

theorem convertRate12_error_cases {env : RateEnv} {a b : String} {e : CalcError}
    (h : convertRate12 env a b = .error e) :
    e = .malformedPair ∨ e = .rateUnavailable a b := by
  rcases convertRateWith_error h with ⟨p, hp⟩ | he
  · exact Or.inl (fetch12_error hp)
  · exact Or.inr he

theorem handleCalculate_ok_elim {env : RateEnv} {c pair : String}
    {b rp sl : ℚ} {res : CalculationResult}
    (h : handleCalculate env c pair (some b) (some rp) (some sl) = .ok res) :
    0 < b ∧ 0 < rp ∧ 0 < sl ∧ ∃ base quote q2a,
      parsePair (normalizePair pair) = .ok (base, quote) ∧
      (if c = quote then (Except.ok 1 : Except CalcError ℚ)
       else convertRate12 env quote c) = .ok q2a ∧
      0 < sl * (pipSizeFor (normalizePair pair) * q2a *
        contractSizeFor (normalizePair pair)) ∧
      res = ⟨b * (rp / 100),
        pipSizeFor (normalizePair pair) * q2a *
          contractSizeFor (normalizePair pair),
        b * (rp / 100) /
          (sl * (pipSizeFor (normalizePair pair) * q2a *
            contractSizeFor (normalizePair pair)))⟩ := by
  by_cases hval : b ≤ 0 ∨ rp ≤ 0 ∨ sl ≤ 0
  · simp [handleCalculate, if_pos hval] at h
  · push_neg at hval
    obtain ⟨hb, hrp, hsl⟩ := hval
    have hval' : ¬(b ≤ 0 ∨ rp ≤ 0 ∨ sl ≤ 0) := by
      push_neg
      exact ⟨hb, hrp, hsl⟩
    cases hp : parsePair (normalizePair pair) with
    | error e => simp [handleCalculate, if_neg hval', hp] at h
    | ok bq =>
      obtain ⟨base, quote⟩ := bq
      cases hcr : (if c = quote then (Except.ok 1 : Except CalcError ℚ)
          else convertRate12 env quote c) with
      | error e => simp [handleCalculate, if_neg hval', hp, hcr] at h
      | ok q2a =>
        by_cases hrisk : sl * (pipSizeFor (normalizePair pair) * q2a *
            contractSizeFor (normalizePair pair)) ≤ 0
        · simp [handleCalculate, if_neg hval', hp, hcr, if_pos hrisk] at h
        · simp only [handleCalculate, if_neg hval', hp, hcr, if_neg hrisk,
            Except.ok.injEq] at h
          exact ⟨hb, hrp, hsl, base, quote, q2a, rfl, hcr,
            not_le.mp hrisk, h.symm⟩

theorem handleCalculate_ok_intro {env : RateEnv} {c pair base quote : String}
    {b rp sl q2a : ℚ} (hb : 0 < b) (hrp : 0 < rp) (hsl : 0 < sl)
    (hp : parsePair (normalizePair pair) = .ok (base, quote))
    (hcr : (if c = quote then (Except.ok 1 : Except CalcError ℚ)
      else convertRate12 env quote c) = .ok q2a)
    (hrisk : 0 < sl * (pipSizeFor (normalizePair pair) * q2a *
      contractSizeFor (normalizePair pair))) :
    handleCalculate env c pair (some b) (some rp) (some sl) =
      .ok ⟨b * (rp / 100),
        pipSizeFor (normalizePair pair) * q2a *
          contractSizeFor (normalizePair pair),
        b * (rp / 100) /
          (sl * (pipSizeFor (normalizePair pair) * q2a *
            contractSizeFor (normalizePair pair)))⟩ := by
  have hval : ¬(b ≤ 0 ∨ rp ≤ 0 ∨ sl ≤ 0) := by
    push_neg
    exact ⟨hb, hrp, hsl⟩
  simp only [handleCalculate, if_neg hval, hp, hcr, if_neg (not_le.mpr hrisk)]

/-! ## Claim C2 -/

/-- C2: once the numeric inputs are valid and the pair parses, if the
account currency differs from the quote currency and both the direct
lookup (quote to account) and the inverse lookup (account to quote)
fail -- a failed remote call, or a missing, non-numeric or non-positive
parsed rate, all of which the part_012 fetch surfaces as a null return --
then the whole calculation fails with the rate-unavailable error and no
CalculationResult is produced; and conversely every successful calculation
obtained a positive conversion rate from convertRate, so an unavailable
rate is never silently replaced by 1 or skipped. -/
theorem c2_rate_unavailable_fail_fast : ∀ (env : RateEnv)
    (c pair base quote : String) (b rp sl : ℚ),
    0 < b → 0 < rp → 0 < sl →
    parsePair (normalizePair pair) = .ok (base, quote) →
    c ≠ quote →
    (fetchExchangeRate12 env (quote ++ c) = .ok none →
     fetchExchangeRate12 env (c ++ quote) = .ok none →
     handleCalculate env c pair (some b) (some rp) (some sl) =
       .error (.rateUnavailable quote c)) ∧
    (∀ res, handleCalculate env c pair (some b) (some rp) (some sl) = .ok res →
      ∃ r, convertRate12 env quote c = .ok r ∧ 0 < r) := by
  intro env c pair base quote b rp sl hb hrp hsl hp hcq
  have hval : ¬(b ≤ 0 ∨ rp ≤ 0 ∨ sl ≤ 0) := by
    push_neg
    exact ⟨hb, hrp, hsl⟩
  have hqc : quote ≠ c := fun h => hcq h.symm
  constructor
  · intro hdir hinv
    have hcr : convertRate12 env quote c = .error (.rateUnavailable quote c) := by
      simp only [convertRate12, convertRateWith, if_neg hqc, hdir,
        convertInverse, hinv]
    simp only [handleCalculate, if_neg hval, hp, if_neg hcq, hcr]
  · intro res h
    obtain ⟨_, _, _, base2, quote2, q2a, hp2, hcr2, _, _⟩ :=
      handleCalculate_ok_elim h
    rw [hp] at hp2
    obtain ⟨rfl, rfl⟩ : base = base2 ∧ quote = quote2 := by
      have hpair := Except.ok.inj hp2
      exact ⟨congrArg Prod.fst hpair, congrArg Prod.snd hpair⟩
    rw [if_neg hcq] at hcr2
    exact ⟨q2a, hcr2, convertRateWith_ok_pos hcr2⟩

/-- C2 witness: the specification's USDJPY example with a USD account and
an unreachable rate source fails with the rate-unavailable error. -/
theorem c2_rate_unavailable_fail_fast_witness :
    handleCalculate envEmpty "USD" "USDJPY" (some 1000) (some 1) (some 10) =
      .error (.rateUnavailable "JPY" "USD") :=
  (c2_rate_unavailable_fail_fast envEmpty "USD" "USDJPY" "USD" "JPY" 1000 1 10
    (by norm_num) (by norm_num) (by norm_num) rfl (by decide)).1 rfl rfl

/-! ## Claim C3 -/

/-- C3: over a USD-anchored table (one unit of USD per USD, and positive
finite entries for the requested codes), both source variants of
fetchExchangeRate return exactly the specification's formula -- the quote
entry when the base is USD, the reciprocal of the base entry when the
quote is USD, and their quotient otherwise -- and therefore agree with
each other on every such input on which both succeed. -/
theorem c3_usd_anchored_formula : ∀ (env : RateEnv) (base quote : String)
    (ub uq : ℚ),
    env.apiKey = true → env.ok = true →
    env.rates "USD" = some 1 →
    parsePair (base ++ quote) = .ok (base, quote) →
    env.rates base = some ub → env.rates quote = some uq →
    0 < ub → 0 < uq →
    fetchExchangeRate12 env (base ++ quote) =
      .ok (some (specRateFormula ub uq base quote)) ∧
    fetchExchangeRate11 env (base ++ quote) =
      .ok (some (specRateFormula ub uq base quote)) := by
  intro env base quote ub uq hkey hok husd hp hb hq hub huq
  have hnle : ¬(ub ≤ 0 ∨ uq ≤ 0) := by
    push_neg
    exact ⟨hub, huq⟩
  constructor
  · simp only [fetchExchangeRate12, hp, hok, Bool.not_true, Bool.false_eq_true,
      if_false, hb, hq, if_neg hnle, specRateFormula]
  · by_cases hbU : base = "USD"
    · subst hbU
      by_cases hqU : quote = "USD"
      · subst hqU
        have huq1 : uq = 1 := by
          rw [husd] at hq
          exact (Option.some.inj hq).symm
        have hp2 : parsePair "USDUSD" = Except.ok ("USD", "USD") := rfl
        simp [fetchExchangeRate11, hkey, hp2, hok, specRateFormula, huq1]
      · simp [fetchExchangeRate11, hkey, hp, hok, hq, hqU, specRateFormula]
    · by_cases hqU : quote = "USD"
      · subst hqU
        have huq1 : uq = 1 := by
          rw [husd] at hq
          exact (Option.some.inj hq).symm
        simp [fetchExchangeRate11, hkey, hp, hok, hb, hbU, specRateFormula,
          huq1]
      · simp [fetchExchangeRate11, hkey, hp, hok, hb, hq, hbU, hqU,
          specRateFormula]

/-- C3 witness: on the demo table the EURJPY cross rate is the quotient of
the two USD-anchored entries, in both variants. -/
theorem c3_usd_anchored_formula_witness :
    fetchExchangeRate12 envDemo ("EUR" ++ "JPY") =
      .ok (some (specRateFormula (9/10) 150 "EUR" "JPY")) ∧
    fetchExchangeRate11 envDemo ("EUR" ++ "JPY") =
      .ok (some (specRateFormula (9/10) 150 "EUR" "JPY")) :=
  c3_usd_anchored_formula envDemo "EUR" "JPY" (9/10) 150 rfl rfl rfl rfl rfl rfl
    (by norm_num) (by norm_num)

/-! ## Claim C8 -/

/-- C8: round-trip consistency of convertRate, stated for an arbitrary
fetch oracle and hence for both source variants, which are
convertRateWith applied to their respective fetch functions.  If the
source quotes the pair at a positive rate and the reversed pair at its
exact reciprocal, then resolving either direction returns the respective
exact value, so each direction is the reciprocal of the other; and when
the direct lookup fails, the fallback through the inverse lookup returns
the same value the direct lookup would have given. -/
theorem c8_round_trip : ∀ (fetchER : String → Except CalcError (Option ℚ))
    (base quote : String) (r : ℚ), 0 < r →
    ((fetchER (base ++ quote) = .ok (some r) ∧
      fetchER (quote ++ base) = .ok (some (1/r))) →
      convertRateWith fetchER base quote = .ok r ∧
      convertRateWith fetchER quote base = .ok (1/r)) ∧
    ((fetchER (base ++ quote) = .ok none ∧
      fetchER (quote ++ base) = .ok (some (1/r))) →
      convertRateWith fetchER base quote = .ok r) := by
  intro f base quote r hr
  constructor
  · rintro ⟨hd, hi⟩
    by_cases hbq : base = quote
    · subst hbq
      have h1 : r = 1/r := by
        have h0 := hd.symm.trans hi
        simpa using h0
      have h2 : r * r = 1 := by
        have hr0 : r ≠ 0 := ne_of_gt hr
        field_simp at h1
        linarith [h1]
      have hr1 : r = 1 := by
        have hfac : (r - 1) * (r + 1) = 0 := by nlinarith [h2]
        rcases mul_eq_zero.mp hfac with h | h
        · linarith
        · linarith
      constructor <;> simp [convertRateWith, hr1]
    · have hbq2 : quote ≠ base := fun h => hbq h.symm
      constructor
      · simp only [convertRateWith, if_neg hbq, hd]
        rw [if_pos hr]
      · have hrinv : 0 < 1/r := by positivity
        simp only [convertRateWith, if_neg hbq2, hi]
        rw [if_pos hrinv]
  · rintro ⟨hd, hi⟩
    by_cases hbq : base = quote
    · subst hbq
      rw [hd] at hi
      simp at hi
    · have hrinv : 0 < 1/r := by positivity
      simp only [convertRateWith, if_neg hbq, hd, convertInverse, hi]
      rw [if_pos hrinv, one_div_one_div]

/-- C8 witness: with a demo oracle quoting EURUSD at 2 and USDEUR at one
half, both directions resolve to exact reciprocals of each other. -/
theorem c8_round_trip_witness :
    convertRateWith fetchDemo "EUR" "USD" = .ok 2 ∧
    convertRateWith fetchDemo "USD" "EUR" = .ok (1/2) :=
  (c8_round_trip fetchDemo "EUR" "USD" 2 (by norm_num)).1 ⟨rfl, rfl⟩

/-! ## Claim C9 -/

/-- C9: no upper bound on the risk percentage is enforced.  With valid
balance and stop-loss and a well-formed pair, a risk percentage above 100
is not rejected as invalid input; any result the calculation returns has
risk amount equal to balance times riskPercent over 100, which then
strictly exceeds the balance; and when no currency conversion is needed
the calculation does return such a result. -/
theorem c9_no_risk_cap : ∀ (env : RateEnv) (c pair base quote : String)
    (b rp sl : ℚ),
    0 < b → 0 < sl → 100 < rp →
    parsePair (normalizePair pair) = .ok (base, quote) →
    (handleCalculate env c pair (some b) (some rp) (some sl) ≠
      .error .invalidInput) ∧
    (∀ res, handleCalculate env c pair (some b) (some rp) (some sl) = .ok res →
      res.riskAmount = b * (rp / 100) ∧ b < res.riskAmount) ∧
    (c = quote → ∃ res,
      handleCalculate env c pair (some b) (some rp) (some sl) = .ok res) := by
  intro env c pair base quote b rp sl hb hsl hrp100 hp
  have hrp : 0 < rp := by linarith
  have hval : ¬(b ≤ 0 ∨ rp ≤ 0 ∨ sl ≤ 0) := by
    push_neg
    exact ⟨hb, hrp, hsl⟩
  refine ⟨?_, ?_, ?_⟩
  · intro heq
    simp only [handleCalculate, if_neg hval, hp] at heq
    cases hcr : (if c = quote then (Except.ok 1 : Except CalcError ℚ)
        else convertRate12 env quote c) with
    | error e =>
      simp only [hcr, Except.error.injEq] at heq
      by_cases hcq : c = quote
      · rw [if_pos hcq] at hcr
        cases hcr
      · rw [if_neg hcq] at hcr
        rcases convertRate12_error_cases hcr with h | h <;> subst h <;>
          simp at heq
    | ok q2a =>
      simp only [hcr] at heq
      by_cases hrisk : sl * (pipSizeFor (normalizePair pair) * q2a *
          contractSizeFor (normalizePair pair)) ≤ 0
      · rw [if_pos hrisk] at heq
        simp at heq
      · rw [if_neg hrisk] at heq
        simp at heq
  · intro res h
    obtain ⟨_, _, _, base2, quote2, q2a, hp2, hcr2, _, hres⟩ :=
      handleCalculate_ok_elim h
    constructor
    · rw [hres]
    · rw [hres]
      show b < b * (rp / 100)
      nlinarith [hb, hrp100]
  · intro hcq
    have hcr : (if c = quote then (Except.ok 1 : Except CalcError ℚ)
        else convertRate12 env quote c) = .ok 1 := if_pos hcq
    have hpip := pipSizeFor_pos (normalizePair pair)
    have hcs := contractSizeFor_pos (normalizePair pair)
    have hrisk : 0 < sl * (pipSizeFor (normalizePair pair) * 1 *
        contractSizeFor (normalizePair pair)) := by positivity
    exact ⟨_, handleCalculate_ok_intro hb hrp hsl hp hcr hrisk⟩

/-- C9 witness: a 150 percent risk request on EURUSD with a USD account
succeeds and its risk amount exceeds the balance. -/
theorem c9_no_risk_cap_witness :
    (handleCalculate envEmpty "USD" "EURUSD" (some 1000) (some 150)
        (some 10) ≠ .error .invalidInput) ∧
    (∀ res, handleCalculate envEmpty "USD" "EURUSD" (some 1000) (some 150)
        (some 10) = .ok res →
      res.riskAmount = 1000 * (150 / 100) ∧ 1000 < res.riskAmount) ∧
    ("USD" = "USD" → ∃ res,
      handleCalculate envEmpty "USD" "EURUSD" (some 1000) (some 150)
        (some 10) = .ok res) :=
  c9_no_risk_cap envEmpty "USD" "EURUSD" "EUR" "USD" 1000 150 10
    (by norm_num) (by norm_num) (by norm_num) rfl

/-! ## Claim C10 -/

/-- C10: with the rate environment, account currency, pair, risk percent
and stop-loss fixed, scaling the balance of a successful calculation by a
positive factor scales the risk amount and the position size by exactly
that factor and leaves the pip value per lot unchanged; moreover the pip
value per lot of any successful calculation for the same environment,
currency and pair is the same whatever the balance, risk percent and
stop-loss. -/
theorem c10_balance_linearity : ∀ (env : RateEnv) (c pair : String)
    (b rp sl k : ℚ) (res : CalculationResult),
    handleCalculate env c pair (some b) (some rp) (some sl) = .ok res →
    0 < k →
    (∃ res2, handleCalculate env c pair (some (k * b)) (some rp) (some sl) =
        .ok res2 ∧
      res2.riskAmount = k * res.riskAmount ∧
      res2.positionSizeLots = k * res.positionSizeLots ∧
      res2.pipValuePerLot = res.pipValuePerLot) ∧
    (∀ b2 rp2 sl2 res2,
      handleCalculate env c pair (some b2) (some rp2) (some sl2) = .ok res2 →
      res2.pipValuePerLot = res.pipValuePerLot) := by
  intro env c pair b rp sl k res h hk
  obtain ⟨hb, hrp, hsl, base, quote, q2a, hp, hcr, hrisk, hres⟩ :=
    handleCalculate_ok_elim h
  constructor
  · refine ⟨_, handleCalculate_ok_intro (mul_pos hk hb) hrp hsl hp hcr hrisk,
      ?_, ?_, ?_⟩
    · rw [hres]
      show k * b * (rp / 100) = k * (b * (rp / 100))
      ring
    · rw [hres]
      show k * b * (rp / 100) /
          (sl * (pipSizeFor (normalizePair pair) * q2a *
            contractSizeFor (normalizePair pair))) =
        k * (b * (rp / 100) /
          (sl * (pipSizeFor (normalizePair pair) * q2a *
            contractSizeFor (normalizePair pair))))
      rw [mul_assoc, mul_div_assoc]
    · rw [hres]
  · intro b2 rp2 sl2 res2 h2
    obtain ⟨_, _, _, base2, quote2, q2a2, hp2, hcr2, _, hres2⟩ :=
      handleCalculate_ok_elim h2
    rw [hp] at hp2
    have hpair := Except.ok.inj hp2
    have hquote : quote = quote2 := congrArg Prod.snd hpair
    rw [← hquote] at hcr2
    rw [hcr] at hcr2
    have hq2a : q2a = q2a2 := Except.ok.inj hcr2
    rw [hres, hres2, ← hq2a]

/-- C10 witness: tripling a 200 balance triples the risk amount and the
position size and leaves the pip value per lot at 10. -/
theorem c10_balance_linearity_witness :
    (∃ res2, handleCalculate envEmpty "USD" "EURUSD" (some (3 * 200))
        (some 5) (some 10) = .ok res2 ∧
      res2.riskAmount =
        3 * (CalculationResult.mk 10 10 (1/10)).riskAmount ∧
      res2.positionSizeLots =
        3 * (CalculationResult.mk 10 10 (1/10)).positionSizeLots ∧
      res2.pipValuePerLot =
        (CalculationResult.mk 10 10 (1/10)).pipValuePerLot) ∧
    (∀ b2 rp2 sl2 res2, handleCalculate envEmpty "USD" "EURUSD" (some b2)
        (some rp2) (some sl2) = .ok res2 →
      res2.pipValuePerLot = (CalculationResult.mk 10 10 (1/10)).pipValuePerLot) :=
  c10_balance_linearity envEmpty "USD" "EURUSD" 200 5 10 3 ⟨10, 10, 1/10⟩
    (by
      have hp : parsePair (normalizePair "EURUSD") = .ok ("EUR", "USD") := rfl
      have hpip : pipSizeFor (normalizePair "EURUSD") = 1/10000 := rfl
      have hcs : contractSizeFor (normalizePair "EURUSD") = 100000 := rfl
      simp only [handleCalculate, hp, hpip, hcs]
      norm_num)
    (by norm_num)
